import Mathlib

/-!
Verification of the Forge test-suite orchestration repository.

The repository's visible sources are `testsuite/forge_test.py` (the test
suite of the Forge orchestrator), `testsuite/lint.py` (the Helm linter)
and `testsuite/replay_verify.py` (the parallel backup replay verifier).
The orchestrator module `forge.py` itself is not part of the visible
sources, so its operations are modelled from the specification (each such
definition carries a doc comment starting with `Modelled from the spec:`);
`lint.py` and `replay_verify.py` are embedded from their sources.

Strings are embedded as `List Char`; process exit codes as `Nat`.
-/

/-- Result of one Shell-port invocation: exit code and captured output
(`RunResult` in the sources). -/
structure RunResult where
  exit_code : Nat
  output : List Char
deriving DecidableEq

/-- Modelled from the spec: the `ForgeState` enumeration of `forge.py`
(not under the visible sources); states PASS, FAIL and SKIP. -/
inductive ForgeState where
  | PASS
  | FAIL
  | SKIP
deriving DecidableEq

/-- Modelled from the spec: the `ForgeResult` value object of `forge.py`
(not under the visible sources); the timestamps play no role in the
verified claims and are omitted. -/
structure ForgeResult where
  state : ForgeState
  output : List Char
deriving DecidableEq

/-! ## Credential guard (claim C3) -/

/-- Modelled from the spec: `assert_aws_token_expiration` from `forge.py`
(not under the visible sources).  The ISO-8601 parse of the expiration
string (with timezone offset) is abstracted as the `parse` argument,
returning the parsed timestamp or `none` when the string is unparsable;
`now` is the current time read from the clock.  Errors are returned as
`Except.error` carrying the `AwsError` message. -/
def assert_aws_token_expiration (parse : String → Option Int) (now : Int) :
    Option String → Except String Unit
  | none => .error ("AWS token is required")
  | some s =>
    match parse s with
    | none => .error ("Invalid date format: " ++ s)
    | some t => if t ≤ now then .error ("AWS token has expired") else .ok ()

/-! ## Replay verify partition ranges (claim C9) -/

/-- Embedded from `testsuite/replay_verify.py`, `replay_verify_partition`
(lines 94-99): the `(start, end)` version range handed to the
`aptos-db-tool replay-verify` subprocess for partition `n` of `N`.
`end` is first set to `history_start + n * per_partition`, raised to
`latest_version` for the last partition when it falls short, and `start`
is recomputed as `end - per_partition` afterwards. -/
def replay_verify_partition_range (n N history_start per_partition latest_version : Int) :
    Int × Int :=
  let e0 := history_start + n * per_partition
  let e := if n = N ∧ e0 < latest_version then latest_version else e0
  (e - per_partition, e)

/-- C9: every `replay_verify_partition` call verifies a range of length
exactly `per_partition` (the start is recomputed as `end - per_partition`
even after the last partition's end is raised to `latest_version`), so
when `history_start + N * per_partition < latest_version` the last
partition shifts rather than extends and the versions strictly between
`history_start + (N-1) * per_partition` and `latest_version -
per_partition` belong to no partition `1 ≤ n ≤ N` issued by `main`. -/
theorem claim_C9 :
    (∀ n N hs pp lv,
      (replay_verify_partition_range n N hs pp lv).2
        - (replay_verify_partition_range n N hs pp lv).1 = pp) ∧
    (∀ N hs pp lv, 0 ≤ pp → hs + N * pp < lv →
      ∀ v : Int, hs + (N - 1) * pp < v → v < lv - pp →
      ∀ n, 1 ≤ n → n ≤ N →
        ¬ ((replay_verify_partition_range n N hs pp lv).1 ≤ v ∧
            v ≤ (replay_verify_partition_range n N hs pp lv).2)) := by
  constructor
  · intro n N hs pp lv
    simp only [replay_verify_partition_range]
    split <;> ring
  · intro N hs pp lv hpp hlt v hv1 hv2 n hn1 hnN
    simp only [replay_verify_partition_range]
    split
    · intro hc
      obtain ⟨h1, _⟩ := hc
      omega
    · intro hc
      obtain ⟨h1, h2⟩ := hc
      rename_i h
      by_cases hn : n = N
      · exact h ⟨hn, by rw [hn]; exact hlt⟩
      · have hmul : n * pp ≤ (N - 1) * pp :=
          mul_le_mul_of_nonneg_right (by omega) hpp
        omega

/-- Witness for C9 at concrete values: with `history_start = 0`,
`per_partition = 10`, `N = 16` and `latest_version = 200`, version `155`
lies in the uncovered gap and belongs to the last partition's range for
no partition, in particular not to partition 16. -/
theorem claim_C9_witness :
    ¬ ((replay_verify_partition_range 16 16 0 10 200).1 ≤ 155 ∧
        (155 : Int) ≤ (replay_verify_partition_range 16 16 0 10 200).2) :=
  claim_C9.2 16 0 10 200 (by norm_num) (by norm_num) 155 (by norm_num)
    (by norm_num) 16 (by norm_num) (by norm_num)

/-- C3: `assert_aws_token_expiration` fails with message `AWS token is
required` on an absent argument, with `Invalid date format: <input>` on an
unparsable timestamp, with `AWS token has expired` when the parsed
timestamp is at or before the current time, and returns normally on every
parsable timestamp strictly in the future. -/
theorem claim_C3 : ∀ (parse : String → Option Int) (now : Int),
    (assert_aws_token_expiration parse now none = .error ("AWS token is required")) ∧
    (∀ s, parse s = none →
      assert_aws_token_expiration parse now (some s) = .error ("Invalid date format: " ++ s)) ∧
    (∀ s t, parse s = some t → t ≤ now →
      assert_aws_token_expiration parse now (some s) = .error ("AWS token has expired")) ∧
    (∀ s t, parse s = some t → now < t →
      assert_aws_token_expiration parse now (some s) = .ok ()) := by
  intro parse now
  refine ⟨rfl, ?_, ?_, ?_⟩
  · intro s hs
    simp [assert_aws_token_expiration, hs]
  · intro s t hs ht
    simp [assert_aws_token_expiration, hs, ht]
  · intro s t hs ht
    simp [assert_aws_token_expiration, hs]
    omega

/-- Witness for C3 at a concrete parser and clock: a token parsing to
time 100 with the clock at 0 passes the guard. -/
theorem claim_C3_witness :
    assert_aws_token_expiration (fun _ => some 100) 0 (some "t") = .ok () :=
  (claim_C3 (fun _ => some 100) 0).2.2.2 "t" 100 rfl (by norm_num)

/-! ## K8s execution strategy (claims C1, C2) -/

/-- Modelled from the spec: the six order-sensitive cluster commands that
`K8sForgeRunner.run` from `forge.py` (not under the visible sources)
issues through the Shell port, abstracted as an enumeration:
teardown-delete, wait-for-delete, apply-manifest, wait-for-ready,
follow-logs, get-pod-phase. -/
inductive ClusterCmd where
  | teardownDelete
  | waitForDelete
  | applyManifest
  | waitForReady
  | followLogs
  | getPodPhase
deriving DecidableEq

/-- The six cluster commands in the fixed order of the pod-lifecycle
state machine. -/
def k8sCommands : List ClusterCmd :=
  [.teardownDelete, .waitForDelete, .applyManifest, .waitForReady,
    .followLogs, .getPodPhase]

/-- Position of a cluster command in the fixed sequence. -/
def cmdIndex : ClusterCmd → Nat
  | .teardownDelete => 0
  | .waitForDelete => 1
  | .applyManifest => 2
  | .waitForReady => 3
  | .followLogs => 4
  | .getPodPhase => 5

/-- Modelled from the spec: `K8sForgeRunner.run` from `forge.py` (not
under the visible sources).  The Shell port is a scripted map from
cluster command to `RunResult`.  The runner issues the six commands in
the fixed order; a non-zero exit at any step is an immediate fatal FAIL
that issues no later command; after streaming logs (whose output is the
result's output), the pod's final phase resolves the verdict: exactly
the phase string `Succeeded` yields PASS.  Returns the ordered list of
issued commands together with the produced `ForgeResult`. -/
def k8sRun (shell : ClusterCmd → RunResult) : List ClusterCmd × ForgeResult :=
  let r1 := shell .teardownDelete
  if r1.exit_code ≠ 0 then
    ([.teardownDelete], ⟨.FAIL, r1.output⟩)
  else
    let r2 := shell .waitForDelete
    if r2.exit_code ≠ 0 then
      ([.teardownDelete, .waitForDelete], ⟨.FAIL, r2.output⟩)
    else
      let r3 := shell .applyManifest
      if r3.exit_code ≠ 0 then
        ([.teardownDelete, .waitForDelete, .applyManifest], ⟨.FAIL, r3.output⟩)
      else
        let r4 := shell .waitForReady
        if r4.exit_code ≠ 0 then
          ([.teardownDelete, .waitForDelete, .applyManifest, .waitForReady],
            ⟨.FAIL, r4.output⟩)
        else
          let r5 := shell .followLogs
          if r5.exit_code ≠ 0 then
            ([.teardownDelete, .waitForDelete, .applyManifest, .waitForReady,
              .followLogs], ⟨.FAIL, r5.output⟩)
          else
            let r6 := shell .getPodPhase
            if r6.exit_code ≠ 0 then
              (k8sCommands, ⟨.FAIL, r5.output⟩)
            else
              (k8sCommands,
                ⟨if r6.output = ("Succeeded").toList then .PASS else .FAIL,
                  r5.output⟩)

/-- C1: for every scripted Shell, `k8sRun` issues the six cluster
commands in the fixed order teardown-delete, wait-for-delete,
apply-manifest, wait-for-ready, follow-logs, get-pod-phase; and when the
step reached at position `cmdIndex c` returns a non-zero exit code (all
earlier steps having exited zero), the issued commands are exactly the
sequence cut off right after that step and the result state is FAIL. -/
theorem claim_C1 : ∀ shell : ClusterCmd → RunResult,
    ((∀ c, (shell c).exit_code = 0) → (k8sRun shell).1 = k8sCommands) ∧
    (∀ c, (shell c).exit_code ≠ 0 →
      (∀ d, cmdIndex d < cmdIndex c → (shell d).exit_code = 0) →
      (k8sRun shell).1 = k8sCommands.take (cmdIndex c + 1) ∧
        (k8sRun shell).2.state = ForgeState.FAIL) := by
  intro shell
  constructor
  · intro hall
    simp [k8sRun, hall .teardownDelete, hall .waitForDelete,
      hall .applyManifest, hall .waitForReady, hall .followLogs,
      hall .getPodPhase]
  · intro c hc hprev
    cases c with
    | teardownDelete =>
      simp [k8sRun, hc, k8sCommands, cmdIndex]
    | waitForDelete =>
      have h0 := hprev .teardownDelete (by decide)
      simp [k8sRun, h0, hc, k8sCommands, cmdIndex]
    | applyManifest =>
      have h0 := hprev .teardownDelete (by decide)
      have h1 := hprev .waitForDelete (by decide)
      simp [k8sRun, h0, h1, hc, k8sCommands, cmdIndex]
    | waitForReady =>
      have h0 := hprev .teardownDelete (by decide)
      have h1 := hprev .waitForDelete (by decide)
      have h2 := hprev .applyManifest (by decide)
      simp [k8sRun, h0, h1, h2, hc, k8sCommands, cmdIndex]
    | followLogs =>
      have h0 := hprev .teardownDelete (by decide)
      have h1 := hprev .waitForDelete (by decide)
      have h2 := hprev .applyManifest (by decide)
      have h3 := hprev .waitForReady (by decide)
      simp [k8sRun, h0, h1, h2, h3, hc, k8sCommands, cmdIndex]
    | getPodPhase =>
      have h0 := hprev .teardownDelete (by decide)
      have h1 := hprev .waitForDelete (by decide)
      have h2 := hprev .applyManifest (by decide)
      have h3 := hprev .waitForReady (by decide)
      have h4 := hprev .followLogs (by decide)
      simp [k8sRun, h0, h1, h2, h3, h4, hc, k8sCommands, cmdIndex]

/-- Witness for C1 at concrete scripted Shells: an all-zero script
issues exactly the six commands in order, and a script failing at the
readiness wait stops right after it with a FAIL result. -/
theorem claim_C1_witness :
    (k8sRun (fun _ => ⟨0, []⟩)).1 = k8sCommands ∧
    ((k8sRun (fun c => if c = .waitForReady then ⟨1, []⟩ else ⟨0, []⟩)).1
        = k8sCommands.take 4 ∧
      (k8sRun (fun c => if c = .waitForReady then ⟨1, []⟩ else ⟨0, []⟩)).2.state
        = ForgeState.FAIL) :=
  ⟨(claim_C1 (fun _ => ⟨0, []⟩)).1 (fun _ => rfl),
    (claim_C1 (fun c => if c = .waitForReady then ⟨1, []⟩ else ⟨0, []⟩)).2
      .waitForReady (by decide)
      (by
        intro d hd
        cases d <;> first | rfl | exact absurd hd (by decide))⟩

/-- C2: whenever the run reaches the final step (the first five cluster
commands all exit zero), the verdict is resolved from the pod phase
reported by get-pod-phase: the result state is PASS exactly when the
phase query exits zero with output `Succeeded`, and it is FAIL exactly
otherwise — any other phase (`Failed`, `Unknown`) or a failing query
(absent pod) yields FAIL, never SKIP. -/
theorem claim_C2 : ∀ shell : ClusterCmd → RunResult,
    (shell .teardownDelete).exit_code = 0 →
    (shell .waitForDelete).exit_code = 0 →
    (shell .applyManifest).exit_code = 0 →
    (shell .waitForReady).exit_code = 0 →
    (shell .followLogs).exit_code = 0 →
    (((k8sRun shell).2.state = ForgeState.PASS ↔
      ((shell .getPodPhase).exit_code = 0 ∧
        (shell .getPodPhase).output = ("Succeeded").toList)) ∧
    ((k8sRun shell).2.state = ForgeState.FAIL ↔
      ¬ ((shell .getPodPhase).exit_code = 0 ∧
        (shell .getPodPhase).output = ("Succeeded").toList))) := by
  intro shell h1 h2 h3 h4 h5
  simp only [k8sRun, h1, h2, h3, h4, h5]
  norm_num
  by_cases h6 : (shell .getPodPhase).exit_code = 0
  · by_cases hp : (shell .getPodPhase).output = ("Succeeded").toList
    · simp [h6, hp]
    · simp [h6, hp]
  · simp [h6]

/-- Witness for C2 at concrete scripted Shells: with all commands
exiting zero, a phase query reporting `Succeeded` makes the run pass,
and one reporting `Failed` (exit code still zero) makes it fail. -/
theorem claim_C2_witness :
    (k8sRun (fun c => if c = .getPodPhase then ⟨0, ("Succeeded").toList⟩
        else ⟨0, []⟩)).2.state = ForgeState.PASS ∧
    (k8sRun (fun c => if c = .getPodPhase then ⟨0, ("Failed").toList⟩
        else ⟨0, []⟩)).2.state = ForgeState.FAIL :=
  ⟨((claim_C2 _ rfl rfl rfl rfl rfl).1).mpr ⟨rfl, rfl⟩,
    ((claim_C2 _ rfl rfl rfl rfl rfl).2).mpr (by decide)⟩

/-! ## Local execution strategy (claim C6) -/

/-- Modelled from the spec: the `ForgeContext` configuration snapshot of
`forge.py` (not under the visible sources), restricted to the fields the
local runner's command line is derived from: suite name, performance
thresholds (p99 latency, TPS, duration), image tags (under-test and
upgrade-target), namespace, and the blocking flag that drives the
port-forward switch. -/
structure ForgeContext where
  forge_test_suite : List Char
  local_p99_latency_ms_threshold : List Char
  forge_runner_tps_threshold : List Char
  forge_runner_duration_secs : List Char
  image_tag : List Char
  upgrade_image_tag : List Char
  forge_namespace : List Char
  forge_blocking : Bool
deriving DecidableEq

/-- Modelled from the spec: the one command line `LocalForgeRunner.run`
from `forge.py` (not under the visible sources) builds, with flags
derived one-to-one from the context fields (suite, the mempool-backlog
default of 5000, TPS, latency and duration thresholds, image tags,
namespace, and the port-forward flag). -/
def localCommand (ctx : ForgeContext) : List Char :=
  ("cargo run -p forge-cli -- --suite ").toList ++ ctx.forge_test_suite
    ++ (" --mempool-backlog 5000 --avg-tps ").toList
    ++ ctx.forge_runner_tps_threshold
    ++ (" --max-latency-ms ").toList ++ ctx.local_p99_latency_ms_threshold
    ++ (" --duration-secs ").toList ++ ctx.forge_runner_duration_secs
    ++ (" test k8s-swarm --image-tag ").toList ++ ctx.image_tag
    ++ (" --upgrade-image-tag ").toList ++ ctx.upgrade_image_tag
    ++ (" --namespace ").toList ++ ctx.forge_namespace
    ++ (if ctx.forge_blocking then (" --port-forward").toList else [])

/-- Modelled from the spec: `LocalForgeRunner.run` from `forge.py` (not
under the visible sources): issue the single derived command through the
Shell port once; exit code zero maps to PASS, any other exit code to
FAIL; the captured output becomes the result output.  Returns the list
of issued commands together with the produced `ForgeResult`. -/
def localRun (ctx : ForgeContext) (shell : List Char → RunResult) :
    List (List Char) × ForgeResult :=
  let r := shell (localCommand ctx)
  ([localCommand ctx],
    ⟨if r.exit_code = 0 then .PASS else .FAIL, r.output⟩)

/-- The context built by `fake_context` in `testsuite/forge_test.py`
(suite banana, thresholds 6000/593943/123, tags asdf and upgrade_asdf,
namespace potato, blocking). -/
def testContext : ForgeContext :=
  ⟨("banana").toList, ("6000").toList, ("593943").toList, ("123").toList,
    ("asdf").toList, ("upgrade_asdf").toList, ("potato").toList, true⟩

set_option maxRecDepth 20000 in
/-- C6: for every context and scripted Shell, `localRun` issues exactly
the one command deterministically derived from the context fields; the
result state is PASS exactly on exit code zero and FAIL on every other
exit code, the captured output becoming the result output.  On the test
fixture context the derived command is the exact command line asserted
by `testLocalRunner`. -/
theorem claim_C6 : ∀ (ctx : ForgeContext) (shell : List Char → RunResult),
    (localRun ctx shell).1 = [localCommand ctx] ∧
    ((localRun ctx shell).2.state = ForgeState.PASS ↔
      (shell (localCommand ctx)).exit_code = 0) ∧
    ((localRun ctx shell).2.state = ForgeState.FAIL ↔
      (shell (localCommand ctx)).exit_code ≠ 0) ∧
    (localRun ctx shell).2.output = (shell (localCommand ctx)).output ∧
    localCommand testContext =
      ("cargo run -p forge-cli -- --suite banana --mempool-backlog 5000 "
        ++ "--avg-tps 593943 --max-latency-ms 6000 --duration-secs 123 "
        ++ "test k8s-swarm --image-tag asdf --upgrade-image-tag "
        ++ "upgrade_asdf --namespace potato --port-forward").toList := by
  intro ctx shell
  refine ⟨rfl, ?_, ?_, rfl, by decide⟩
  · by_cases h : (shell (localCommand ctx)).exit_code = 0 <;>
      simp [localRun, h]
  · by_cases h : (shell (localCommand ctx)).exit_code = 0 <;>
      simp [localRun, h]

/-! ## Image resolver (claims C4, C8) -/

/-- The failure message of the image resolver when the commit threshold
is exhausted before enough images are found. -/
def noImageMsg : String := "no recent image found within threshold"

/-- Modelled from the spec: the search loop of `find_recent_images` from
`forge.py` (not under the visible sources).  `os` is the list of commit
offsets still to walk (most recent first), `r` the number of images
still wanted; `git o` resolves the commit hash at offset `o`, and
`probe h` is the exit code of the registry describe-image command for
hash `h` (zero means the image exists and the hash is yielded, anything
else advances past the offset without yielding).  Exhausting the offsets
with images still wanted is the threshold failure. -/
def findGo (git : Nat → String) (probe : String → Nat) :
    List Nat → Nat → Except String (List String)
  | _, 0 => .ok []
  | [], _ + 1 => .error noImageMsg
  | o :: os, r + 1 =>
    if probe (git o) = 0 then
      match findGo git probe os r with
      | .ok l => .ok (git o :: l)
      | .error e => .error e
    else
      findGo git probe os (r + 1)

/-- Modelled from the spec: `find_recent_images` from `forge.py` (not
under the visible sources): walk commit offsets starting at 0 up to
`commit_threshold` (exclusive), yielding the hashes whose registry probe
exits zero, most recent first, until `desired_count` images are found;
fail with the threshold error if the offsets run out first. -/
def find_recent_images (git : Nat → String) (probe : String → Nat)
    (desired_count commit_threshold : Nat) : Except String (List String) :=
  findGo git probe (List.range commit_threshold) desired_count

/-- The hashes with an existing image among the offsets `os`, in offset
order: the reference value for the resolver's yields. -/
def imageHits (git : Nat → String) (probe : String → Nat) (os : List Nat) :
    List String :=
  (os.filter fun o => probe (git o) == 0).map git

/-- The scripted git collaborator of `testFindRecentImage`: commit
`potato` at offset 0, `lychee` at every later offset. -/
def testGit : Nat → String := fun o => if o = 0 then "potato" else "lychee"

/-- The scripted registry probe of `testFindRecentImage`: only the image
for commit `lychee` exists. -/
def testProbe : String → Nat := fun h => if h = "lychee" then 0 else 1

theorem findGo_ok (git : Nat → String) (probe : String → Nat) :
    ∀ (os : List Nat) (r : Nat), r ≤ (imageHits git probe os).length →
      findGo git probe os r = .ok ((imageHits git probe os).take r) := by
  intro os
  induction os with
  | nil =>
    intro r hr
    simp [imageHits] at hr
    subst hr
    rfl
  | cons o os ih =>
    intro r hr
    cases r with
    | zero => rfl
    | succ r =>
      by_cases hp : probe (git o) = 0
      · have hhits : imageHits git probe (o :: os) = git o :: imageHits git probe os := by
          simp [imageHits, hp]
        rw [hhits] at hr ⊢
        have := ih r (by simpa using hr)
        simp [findGo, hp, this]
      · have hhits : imageHits git probe (o :: os) = imageHits git probe os := by
          simp [imageHits, hp]
        rw [hhits] at hr ⊢
        have := ih (r + 1) hr
        simp [findGo, hp, this]

theorem findGo_err (git : Nat → String) (probe : String → Nat) :
    ∀ (os : List Nat) (r : Nat), (imageHits git probe os).length < r →
      findGo git probe os r = .error noImageMsg := by
  intro os
  induction os with
  | nil =>
    intro r hr
    simp [imageHits] at hr
    obtain ⟨r, rfl⟩ := Nat.exists_eq_add_of_lt hr
    rfl
  | cons o os ih =>
    intro r hr
    cases r with
    | zero => exact absurd hr (by omega)
    | succ r =>
      by_cases hp : probe (git o) = 0
      · have hhits : imageHits git probe (o :: os) = git o :: imageHits git probe os := by
          simp [imageHits, hp]
        rw [hhits] at hr
        have := ih r (by simpa using hr)
        simp [findGo, hp, this]
      · have hhits : imageHits git probe (o :: os) = imageHits git probe os := by
          simp [imageHits, hp]
        rw [hhits] at hr
        have := ih (r + 1) hr
        simp [findGo, hp, this]

/-- C4: `find_recent_images` walks offsets from 0, yields a hash exactly
when its probe exits zero, most recent first, stopping after
`desired_count` yields: whenever at least `desired_count` image-bearing
offsets lie below `commit_threshold` it returns exactly the first
`desired_count` of their hashes in order, and otherwise it fails with
the explicit threshold error instead of a shorter sequence.  In
particular with commits `[potato absent, lychee present]` and desired
count one it produces exactly `[lychee]`, and with a single absent
commit and threshold one it fails. -/
theorem claim_C4 : ∀ (git : Nat → String) (probe : String → Nat)
    (desired_count commit_threshold : Nat),
    (desired_count ≤ (imageHits git probe (List.range commit_threshold)).length →
      find_recent_images git probe desired_count commit_threshold =
        .ok ((imageHits git probe (List.range commit_threshold)).take desired_count)) ∧
    ((imageHits git probe (List.range commit_threshold)).length < desired_count →
      find_recent_images git probe desired_count commit_threshold =
        .error noImageMsg) ∧
    find_recent_images testGit testProbe 1 2 = .ok (["lychee"]) ∧
    find_recent_images (fun _ => "crab") (fun _ => 1) 1 1 = .error noImageMsg := by
  intro git probe dc ct
  exact ⟨findGo_ok git probe (List.range ct) dc,
    findGo_err git probe (List.range ct) dc, rfl, rfl⟩

/-- Witness for C4 at the scripted shell of `testFindRecentImage`: two
offsets, one image-bearing, desired count one. -/
theorem claim_C4_witness :
    find_recent_images testGit testProbe 1 2 =
      .ok ((imageHits testGit testProbe (List.range 2)).take 1) :=
  (claim_C4 testGit testProbe 1 2).1 (by decide)

/-- Modelled from the spec: the two Shell-port commands the image
resolver issues per commit offset it examines: the commit resolution
(`git rev-parse HEAD~offset`) and the registry probe
(`aws ecr describe-images` for the resolved hash). -/
inductive ResolverCmd where
  | gitRevParse (offset : Nat)
  | ecrDescribe (tag : String)
deriving DecidableEq

/-- The offsets the resolver examines before suspending: walk `os` and
stop as soon as `r` image-bearing offsets have been passed (the
generator is suspended right after its `r`-th yield). -/
def examinedGo (git : Nat → String) (probe : String → Nat) :
    List Nat → Nat → List Nat
  | _, 0 => []
  | [], _ + 1 => []
  | o :: os, r + 1 =>
    o :: (if probe (git o) = 0 then examinedGo git probe os r
          else examinedGo git probe os (r + 1))

/-- Modelled from the spec: the ordered Shell commands the lazily
produced `find_recent_images` sequence issues when a consumer takes `r`
elements and then stops: per offset examined, one commit resolution
followed by one registry probe, ending as soon as the `r`-th element has
been yielded (or the offsets are exhausted). -/
def traceGo (git : Nat → String) (probe : String → Nat) :
    List Nat → Nat → List ResolverCmd
  | _, 0 => []
  | [], _ + 1 => []
  | o :: os, r + 1 =>
    .gitRevParse o :: .ecrDescribe (git o) ::
      (if probe (git o) = 0 then traceGo git probe os r
       else traceGo git probe os (r + 1))

/-- The Shell commands issued when a consumer of `find_recent_images`
(with the given threshold) stops after consuming `k` elements. -/
def consumeTrace (git : Nat → String) (probe : String → Nat) (k ct : Nat) :
    List ResolverCmd :=
  traceGo git probe (List.range ct) k

/-- The command block (one commit resolution, one registry probe) of
each offset in `os`, concatenated in order. -/
def cmdsOf (git : Nat → String) (os : List Nat) : List ResolverCmd :=
  os.foldr (fun o acc => .gitRevParse o :: .ecrDescribe (git o) :: acc) []

/-- Whether a resolver command is a registry probe. -/
def isProbeCmd : ResolverCmd → Bool
  | .gitRevParse _ => false
  | .ecrDescribe _ => true

/-- Number of registry probes in a resolver command trace. -/
def probeCount (t : List ResolverCmd) : Nat := (t.filter isProbeCmd).length

theorem traceGo_eq_cmdsOf (git : Nat → String) (probe : String → Nat) :
    ∀ (os : List Nat) (r : Nat),
      traceGo git probe os r = cmdsOf git (examinedGo git probe os r) := by
  intro os
  induction os with
  | nil => intro r; cases r <;> rfl
  | cons o os ih =>
    intro r
    cases r with
    | zero => rfl
    | succ r =>
      by_cases hp : probe (git o) = 0 <;>
        simp [traceGo, examinedGo, cmdsOf, hp, ih]

theorem probeCount_cmdsOf (git : Nat → String) :
    ∀ os : List Nat, probeCount (cmdsOf git os) = os.length := by
  intro os
  induction os with
  | nil => rfl
  | cons o os ih => simp [cmdsOf, probeCount, isProbeCmd] at ih ⊢; omega

theorem examinedGo_mono (git : Nat → String) (probe : String → Nat) :
    ∀ (os : List Nat) (k k' : Nat), k ≤ k' →
      ∃ t, examinedGo git probe os k ++ t = examinedGo git probe os k' := by
  intro os
  induction os with
  | nil =>
    intro k k' _
    cases k <;> cases k' <;> exact ⟨[], rfl⟩
  | cons o os ih =>
    intro k k' hk
    cases k with
    | zero => exact ⟨examinedGo git probe (o :: os) k', rfl⟩
    | succ k =>
      cases k' with
      | zero => exact absurd hk (by omega)
      | succ k' =>
        by_cases hp : probe (git o) = 0
        · obtain ⟨t, ht⟩ := ih k k' (by omega)
          exact ⟨t, by simp [examinedGo, hp, ht]⟩
        · obtain ⟨t, ht⟩ := ih (k + 1) (k' + 1) (by omega)
          exact ⟨t, by simp [examinedGo, hp, ht]⟩

theorem cmdsOf_append (git : Nat → String) :
    ∀ xs ys : List Nat, cmdsOf git (xs ++ ys) = cmdsOf git xs ++ cmdsOf git ys := by
  intro xs ys
  induction xs with
  | nil => rfl
  | cons x xs ih => simp [cmdsOf] at ih ⊢; simp [ih]

/-- C8 (amended): the lazily produced `find_recent_images` sequence,
consumed up to `k` elements on a scripted shell, issues exactly one
commit-resolution call followed by exactly one registry probe per commit
offset examined (so the probe count equals the number of examined
offsets, not the number of consumed elements), and a consumer that stops
after `k` elements issues a trace that is a prefix of the trace of any
longer consumption: stopping early causes no probe beyond those needed
for the consumed items. -/
theorem claim_C8 : ∀ (git : Nat → String) (probe : String → Nat) (k ct : Nat),
    consumeTrace git probe k ct =
      cmdsOf git (examinedGo git probe (List.range ct) k) ∧
    probeCount (consumeTrace git probe k ct) =
      (examinedGo git probe (List.range ct) k).length ∧
    (∀ k', k ≤ k' →
      ∃ t, consumeTrace git probe k ct ++ t = consumeTrace git probe k' ct) := by
  intro git probe k ct
  refine ⟨traceGo_eq_cmdsOf git probe (List.range ct) k, ?_, ?_⟩
  · rw [consumeTrace, traceGo_eq_cmdsOf]
    exact probeCount_cmdsOf git _
  · intro k' hk
    obtain ⟨t, ht⟩ := examinedGo_mono git probe (List.range ct) k k' hk
    refine ⟨cmdsOf git t, ?_⟩
    rw [consumeTrace, consumeTrace, traceGo_eq_cmdsOf, traceGo_eq_cmdsOf,
      ← ht, cmdsOf_append]

/-- Counterexample to C8 as stated: on the scripted shell of
`testFindRecentImage` (offset 0 absent, offset 1 present), consuming one
element issues two registry probes, so the sequence does not perform at
most one probe per element consumed. -/
theorem claim_C8_counterexample :
    ¬ (probeCount (consumeTrace testGit testProbe 1 2) ≤ 1) := by
  decide

/-- Witness for C8 on the scripted shell of `testFindRecentImage`:
the trace of consuming one element is a prefix of the trace of consuming
two. -/
theorem claim_C8_witness :
    ∃ t, consumeTrace testGit testProbe 1 2 ++ t =
      consumeTrace testGit testProbe 2 2 :=
  (claim_C8 testGit testProbe 1 2).2.2 2 (by omega)

/-! ## Cluster lister (claim C5) -/

/-- The naming marker of Forge-managed clusters: names beginning with
`aptos-forge-` are the ones `list_eks_clusters` keeps. -/
def forgeClusterMarker : List Char := ("aptos-forge-").toList

/-- Whether `pat` is an initial segment of `s`. -/
def startsWithL : List Char → List Char → Bool
  | [], _ => true
  | _ :: _, [] => false
  | a :: as, b :: bs => a == b && startsWithL as bs

/-- The single list-clusters command the cluster lister issues. -/
def awsListClustersCmd : List Char := ("aws eks list-clusters").toList

/-- Modelled from the spec: `list_eks_clusters` from `forge.py` (not
under the visible sources): issue exactly one list-clusters query
through the Shell port, decode its output as a JSON object carrying a
`clusters` array of names, and keep exactly the names bearing the
Forge-managed marker, in their original order.  The JSON decode is
abstracted as the `decode` argument, which returns the clusters array or
`none` on non-JSON or malformed output; `none` is a fatal error with no
partial result.  Returns the issued commands with the outcome. -/
def list_eks_clusters (decode : List Char → Option (List (List Char)))
    (shell : List Char → RunResult) :
    List (List Char) × Except (List Char) (List (List Char)) :=
  let out := (shell awsListClustersCmd).output
  ([awsListClustersCmd],
    match decode out with
    | none => .error (("Unable to decode cluster list: ").toList ++ out)
    | some clusters => .ok (clusters.filter fun c => startsWithL forgeClusterMarker c))

/-- The decoded clusters array of `testListClusters`. -/
def testClustersList : List (List Char) :=
  [("banana-fake-1").toList, ("aptos-forge-banana-1").toList,
    ("aptos-forge-potato-2").toList]

/-- The scripted list-clusters output of `testListClusters`, standing
for the JSON serialization of `testClustersList`. -/
def testClustersOut : List Char := ("clusters-json-fixture").toList

/-- A decoder that decodes exactly the scripted output of
`testListClusters` to its clusters array. -/
def testClustersDecode : List Char → Option (List (List Char)) :=
  fun s => if s = testClustersOut then some testClustersList else none

/-- The scripted Shell of `testListClusters`: every command returns the
scripted list-clusters output with exit code zero. -/
def testClustersShell : List Char → RunResult := fun _ => ⟨0, testClustersOut⟩

set_option maxRecDepth 20000 in
/-- C5: `list_eks_clusters` issues exactly the one list-clusters
command; when the decode of the command output fails (non-JSON or
malformed) it returns an error and no partial result, and when it
succeeds the returned names are exactly those bearing the Forge-managed
marker, original order preserved.  On the clusters of
`testListClusters` (`banana-fake-1`, `aptos-forge-banana-1`,
`aptos-forge-potato-2`) exactly the latter two are returned. -/
theorem claim_C5 : ∀ (decode : List Char → Option (List (List Char)))
    (shell : List Char → RunResult),
    (list_eks_clusters decode shell).1 = [awsListClustersCmd] ∧
    (decode ((shell awsListClustersCmd).output) = none →
      ∃ e, (list_eks_clusters decode shell).2 = .error e) ∧
    (∀ cs, decode ((shell awsListClustersCmd).output) = some cs →
      (list_eks_clusters decode shell).2 =
        .ok (cs.filter fun c => startsWithL forgeClusterMarker c)) ∧
    (list_eks_clusters testClustersDecode testClustersShell).2 =
      .ok ([("aptos-forge-banana-1").toList, ("aptos-forge-potato-2").toList]) := by
  intro decode shell
  refine ⟨rfl, ?_, ?_, rfl⟩
  · intro h
    refine ⟨("Unable to decode cluster list: ").toList
      ++ (shell awsListClustersCmd).output, ?_⟩
    simp [list_eks_clusters, h]
  · intro cs h
    simp [list_eks_clusters, h]

/-- Witness for C5 at the scripted shell and decoder of
`testListClusters`. -/
theorem claim_C5_witness :
    (list_eks_clusters testClustersDecode testClustersShell).2 =
      .ok (testClustersList.filter fun c => startsWithL forgeClusterMarker c) :=
  (claim_C5 testClustersDecode testClustersShell).2.2.1 testClustersList rfl

/-! ## Reporter (claim C7) -/

/-- Modelled from the spec: the `ForgeFormatter` of `forge.py` (not
under the visible sources): a report destination (`output`) together
with a pure formatter function of the context and the result. -/
structure ForgeFormatter where
  output : List Char
  format : ForgeContext → ForgeResult → List Char

/-- A filesystem state as seen through the Filesystem port: the contents
stored at each path, `none` where nothing was written. -/
def FsState : Type := List Char → Option (List Char)

/-- One write through the Filesystem port: store `c` at path `p`. -/
def fsWrite (fs : FsState) (p c : List Char) : FsState :=
  fun q => if q = p then some c else fs q

/-- Modelled from the spec: `ForgeContext.report` from `forge.py` (not
under the visible sources): apply each formatter to the context and the
result and write each produced text to the formatter's destination
through the Filesystem port, in order. -/
def report (ctx : ForgeContext) (result : ForgeResult)
    (formatters : List ForgeFormatter) (fs : FsState) : FsState :=
  formatters.foldl (fun s f => fsWrite s f.output (f.format ctx result)) fs

/-- The ordered (destination, contents) writes one `report` invocation
performs: one write per configured formatter. -/
def reportTrace (ctx : ForgeContext) (result : ForgeResult)
    (formatters : List ForgeFormatter) : List (List Char × List Char) :=
  formatters.map fun f => (f.output, f.format ctx result)

/-- Replay a list of (destination, contents) writes through the
Filesystem port. -/
def applyWrites (fs : FsState) (ws : List (List Char × List Char)) : FsState :=
  ws.foldl (fun s w => fsWrite s w.1 w.2) fs

/-- The contents of the last write to `q` in the write list `ws`, if
any. -/
def lastWrite : List (List Char × List Char) → List Char → Option (List Char)
  | [], _ => none
  | w :: ws, q =>
    match lastWrite ws q with
    | some c => some c
    | none => if q = w.1 then some w.2 else none

theorem applyWrites_eq_lastWrite :
    ∀ (ws : List (List Char × List Char)) (fs : FsState) (q : List Char),
      applyWrites fs ws q =
        match lastWrite ws q with
        | some c => some c
        | none => fs q := by
  intro ws
  induction ws with
  | nil => intro fs q; rfl
  | cons w ws ih =>
    intro fs q
    have : applyWrites fs (w :: ws) q = applyWrites (fsWrite fs w.1 w.2) ws q := rfl
    rw [this, ih]
    cases h : lastWrite ws q with
    | some c => simp [lastWrite, h]
    | none =>
      simp only [lastWrite, h, fsWrite]
      by_cases hq : q = w.1 <;> simp [hq]

theorem applyWrites_idem (fs : FsState) (ws : List (List Char × List Char)) :
    applyWrites (applyWrites fs ws) ws = applyWrites fs ws := by
  funext q
  rw [applyWrites_eq_lastWrite, applyWrites_eq_lastWrite]
  cases h : lastWrite ws q <;> rfl

theorem report_eq_applyWrites (ctx : ForgeContext) (result : ForgeResult) :
    ∀ (formatters : List ForgeFormatter) (fs : FsState),
      report ctx result formatters fs =
        applyWrites fs (reportTrace ctx result formatters) := by
  intro formatters
  induction formatters with
  | nil => intro fs; rfl
  | cons f fmts ih =>
    intro fs
    have h1 : report ctx result (f :: fmts) fs =
        report ctx result fmts (fsWrite fs f.output (f.format ctx result)) := rfl
    rw [h1, ih]
    rfl

theorem reportTrace_count (ctx : ForgeContext) (result : ForgeResult)
    (d : List Char) :
    ∀ formatters : List ForgeFormatter,
      ((reportTrace ctx result formatters).filter fun w => decide (w.1 = d)).length
        = (formatters.filter fun f => decide (f.output = d)).length := by
  intro formatters
  induction formatters with
  | nil => rfl
  | cons f fmts ih =>
    by_cases h : f.output = d <;> simp [reportTrace, h] at ih ⊢ <;> omega

/-- C7: reporting is idempotent and deterministic.  For every context,
result and formatter list, one `report` invocation performs exactly the
write trace `reportTrace` (one write per configured formatter, each
destination `d` receiving as many writes as it has formatters — exactly
one for distinct destinations), the trace is a pure function of the
arguments so a second invocation writes identical contents, and
replaying the same invocation on the resulting filesystem state leaves
every file's contents unchanged. -/
theorem claim_C7 : ∀ (ctx : ForgeContext) (result : ForgeResult)
    (formatters : List ForgeFormatter) (fs : FsState) (d : List Char),
    report ctx result formatters fs =
      applyWrites fs (reportTrace ctx result formatters) ∧
    (reportTrace ctx result formatters).length = formatters.length ∧
    ((reportTrace ctx result formatters).filter fun w => decide (w.1 = d)).length
      = (formatters.filter fun f => decide (f.output = d)).length ∧
    report ctx result formatters (report ctx result formatters fs)
      = report ctx result formatters fs := by
  intro ctx result formatters fs d
  refine ⟨report_eq_applyWrites ctx result formatters fs, by simp [reportTrace],
    reportTrace_count ctx result d formatters, ?_⟩
  simp only [report_eq_applyWrites]
  exact applyWrites_idem fs (reportTrace ctx result formatters)

/-! ## Helm linter (claim C10)

Embedded from `testsuite/lint.py`, command `helm` (lines 27-49): for
each linted path the output of `helm lint <path>` is split into lines;
a line starting with `[ERROR]` is matched against the structured error
pattern `.ERROR. (section): (error_type) at ((filename):(line)): (message)`
where `section` is one or more non-colon characters, `line` is one or
more digits, and `error_type`, `filename` and `message` are arbitrary
(newline-free) stretches; the error flag is set exactly on a match, and
at the end a set flag raises `SystemExit(1)`.  The matcher below is the
existential reading of that anchored regular expression (a dot matches
any character but a newline; the digit class is embedded as ASCII
digits); greediness only affects the captured groups, never whether a
match exists, and the trailing `message` wildcard always matches. -/

/-- Does some split of `s` into a prefix and a suffix satisfy `p`? -/
def splitsAny (s : List Char) (p : List Char → List Char → Bool) : Bool :=
  (List.range (s.length + 1)).any fun i => p (s.take i) (s.drop i)

/-- Matcher for the regex tail `(\d+)[)]: (.*)`: a non-empty digit
group, then the literal close-paren colon blank (the final message
wildcard matches whatever follows, if anything). -/
def matchLineNum (s : List Char) : Bool :=
  splitsAny s fun d tail =>
    (!d.isEmpty) && d.all Char.isDigit && startsWithL (("): ").toList) tail

/-- Matcher for the regex tail `(.*):(\d+)[)]: (.*)`: a filename
wildcard, a literal colon, then the line-number tail. -/
def matchFilename (s : List Char) : Bool :=
  splitsAny s fun fname tail =>
    fname.all (fun c => c != '\n') && startsWithL ((":").toList) tail &&
      matchLineNum (tail.drop 1)

/-- Matcher for the regex tail `(.*) at [(](.*):(\d+)[)]: (.*)`: an
error-type wildcard, the literal ` at (`, then the filename tail. -/
def matchErrorType (s : List Char) : Bool :=
  splitsAny s fun et tail =>
    et.all (fun c => c != '\n') && startsWithL ((" at (").toList) tail &&
      matchFilename (tail.drop 5)

/-- The full structured error pattern of `lint.py`:
`.ERROR. ([^:]+?): (.*) at [(](.*):(\d+)[)]: (.*)`, anchored at the
start of the line (`re.match`): any non-newline character, the literal
`ERROR`, any non-newline character, a blank, a non-empty colon-free
section group followed by colon blank, then the error-type tail. -/
def matchesHelmRegex (line : List Char) : Bool :=
  match line with
  | c1 :: rest =>
    (c1 != '\n') && startsWithL (("ERROR").toList) rest &&
      (match rest.drop 5 with
       | c2 :: sp :: after =>
         (c2 != '\n') && (sp == ' ') &&
           splitsAny after fun sec tail =>
             (!sec.isEmpty) && sec.all (fun c => c != ':') &&
               startsWithL ((": ").toList) tail && matchErrorType (tail.drop 2)
       | _ => false)
  | [] => false

/-- The `[ERROR]` marker that makes `lint.py` consider a line at all. -/
def helmErrPat : List Char := ("[ERROR]").toList

/-- Whether a lint output line sets the error flag of the `helm`
command: it starts with `[ERROR]` and matches the structured pattern. -/
def helmLineErr (line : List Char) : Bool :=
  startsWithL helmErrPat line && matchesHelmRegex line

/-- One iteration of the inner loop of the `helm` command over a line of
lint output: the error flag is set on a flagged line and otherwise kept. -/
def helmLineStep (error : Bool) (line : List Char) : Bool :=
  if helmLineErr line then true else error

/-- The loop of the `helm` command over one linted path's output. -/
def helmPathFold (error : Bool) (lines : List (List Char)) : Bool :=
  lines.foldl helmLineStep error

/-- The error flag of the `helm` command after linting every path,
starting from a clear flag; `outputs` holds the split output lines of
`helm lint` per path. -/
def helmErrorFlag (outputs : List (List (List Char))) : Bool :=
  outputs.foldl helmPathFold false

/-- The exit of the `helm` command: `SystemExit(1)` (as `some 1`) when
the error flag is set, a normal return (`none`) otherwise. -/
def helm (outputs : List (List (List Char))) : Option Nat :=
  if helmErrorFlag outputs then some 1 else none

theorem helmPathFold_eq :
    ∀ (lines : List (List Char)) (b : Bool),
      helmPathFold b lines = (b || lines.any helmLineErr) := by
  intro lines
  induction lines with
  | nil => intro b; simp [helmPathFold]
  | cons l ls ih =>
    intro b
    have h1 : helmPathFold b (l :: ls) = helmPathFold (helmLineStep b l) ls := rfl
    rw [h1, ih]
    by_cases hp : helmLineErr l <;> simp [helmLineStep, hp, Bool.or_comm, Bool.or_assoc]

theorem helmErrorFlag_eq :
    ∀ outputs : List (List (List Char)),
      helmErrorFlag outputs = outputs.any fun lines => lines.any helmLineErr := by
  have haux : ∀ (outputs : List (List (List Char))) (b : Bool),
      outputs.foldl helmPathFold b =
        (b || outputs.any fun lines => lines.any helmLineErr) := by
    intro outputs
    induction outputs with
    | nil => intro b; simp
    | cons ls rest ih =>
      intro b
      have h1 : (ls :: rest).foldl helmPathFold b = rest.foldl helmPathFold (helmPathFold b ls) := rfl
      rw [h1, ih, helmPathFold_eq]
      simp [Bool.or_assoc]
  intro outputs
  have := haux outputs false
  simpa using this

set_option maxRecDepth 20000 in
/-- C10: the `helm` lint command exits with `SystemExit(1)` if and only
if at least one line of some linted path's output both starts with
`[ERROR]` and matches the structured error pattern (section, error type,
filename, line number, message); lines beginning with `[ERROR]` that do
not match the pattern, and every other line, leave the flag clear, and
the command then returns normally.  Concretely, a path output containing
`[ERROR] templates/: parse error at (forge/x.yaml:10): oops` exits with
code 1, while `[ERROR] linting failed` alone returns normally. -/
theorem claim_C10 : ∀ outputs : List (List (List Char)),
    (helm outputs = some 1 ↔
      ∃ lines ∈ outputs, ∃ line ∈ lines,
        startsWithL helmErrPat line = true ∧ matchesHelmRegex line = true) ∧
    (helm outputs = none ↔
      ¬ ∃ lines ∈ outputs, ∃ line ∈ lines,
        startsWithL helmErrPat line = true ∧ matchesHelmRegex line = true) ∧
    helm [[("[ERROR] templates/: parse error at (forge/x.yaml:10): oops").toList]]
      = some 1 ∧
    helm [[("[ERROR] linting failed").toList]] = none := by
  intro outputs
  have hexists : (helmErrorFlag outputs = true) ↔
      (∃ lines ∈ outputs, ∃ line ∈ lines,
        startsWithL helmErrPat line = true ∧ matchesHelmRegex line = true) := by
    rw [helmErrorFlag_eq]
    simp [List.any_eq_true, helmLineErr, Bool.and_eq_true]
  refine ⟨?_, ?_, by rfl, by rfl⟩
  · rw [← hexists]
    by_cases hf : helmErrorFlag outputs = true <;> simp [helm, hf]
  · rw [← hexists]
    by_cases hf : helmErrorFlag outputs = true <;> simp [helm, hf]
